import Mathlib

/-!
Verification of the repixel image-compression orchestration layer.

The development shallowly embeds the orchestration code of the repixel
repository (`src/repixel/compressor.py`, `src/repixel/utils.py`,
`src/repixel/cli.py`) in Lean:

* Python unbounded `int` becomes `Int`; Python `//` on nonnegative operands
  (and with the positive divisor 2 in general) agrees with `Int` division
  (`Int.ediv`, which floors for a positive divisor), so `(low + high) / 2`
  embeds `(low + high) // 2` exactly.
* File sizes in megabytes and size targets are embedded as rationals `ℚ`:
  the claims under scrutiny are about the comparison/search logic, which
  only uses the ordered-field structure of the float values.
* The image codec is an external collaborator: a probe at quality `q`
  either yields the compressed size `size q` or raises; we abstract it as
  a function argument.
* Raising an exception is embedded as `Except.error` / `Option.none`.
* A directory listing is embedded as the list of files, in the order the
  operating system enumerates them (`pathlib.Path.glob` promises no
  particular order); a `glob` call filters that enumeration by pattern.
-/

namespace Repixel

/-! ### Quality optimizer (`ImageCompressor.optimize_quality`)

The Python loop is

    low, high = min_quality, max_quality
    best_result = None
    while low <= high:
        mid_quality = (low + high) // 2
        result = self.compress(input_path, temp_output, quality=mid_quality, ...)
        if result["compressed_size_mb"] <= target_size_mb:
            best_result = result
            low = mid_quality + 1
        else:
            high = mid_quality - 1
    if best_result is None:
        raise ValueError(...)
    return best_result

We embed the search over an abstract probe-size function `size : Int → ℚ`
(quality to compressed size in MB) and record the best probe by its
quality.  The loop terminates because `high + 1 - low` strictly decreases;
we run it on that much fuel, which the soundness lemmas show is enough. -/

/-- One `while low <= high` loop of `optimize_quality`, with `fuel`
bounding the number of iterations.  Returns the quality of the last
feasible probe (the Python code keeps the whole probe result; its quality
determines it). -/
def optimizeLoop (size : Int → ℚ) (target : ℚ) :
    Nat → Int → Int → Option Int → Option Int
  | 0, _, _, best => best
  | fuel + 1, low, high, best =>
    if low ≤ high then
      let mid := (low + high) / 2
      if size mid ≤ target then
        optimizeLoop size target fuel (mid + 1) high (some mid)
      else
        optimizeLoop size target fuel low (mid - 1) best
    else best

/-- `ImageCompressor.optimize_quality`: binary search for the best quality.
`none` embeds the `raise ValueError("Cannot achieve target size ...")`
exit. -/
def optimize_quality (size : Int → ℚ) (target : ℚ) (min_quality max_quality : Int) :
    Option Int :=
  optimizeLoop size target (max_quality + 1 - min_quality).toNat min_quality max_quality none

/-- Generalized loop invariant for `optimizeLoop`, assuming the compressed
size is monotone in the quality.  `hbest` says the recorded candidate is a
feasible probe sitting just below `low`; `hinfeas` says everything above
`high` (up to `max_quality`) has been ruled out. -/
theorem optimizeLoop_sound (size : Int → ℚ) (target : ℚ) (min_quality max_quality : Int)
    (hmono : ∀ a b : Int, a ≤ b → size a ≤ size b) :
    ∀ (fuel : Nat) (low high : Int) (best : Option Int) (q : Int),
      (high + 1 - low).toNat ≤ fuel →
      min_quality ≤ low →
      high ≤ max_quality →
      (∀ r : Int, high < r → r ≤ max_quality → target < size r) →
      (∀ b : Int, best = some b →
        size b ≤ target ∧ b + 1 = low ∧ min_quality ≤ b ∧ b ≤ max_quality) →
      optimizeLoop size target fuel low high best = some q →
      min_quality ≤ q ∧ q ≤ max_quality ∧ size q ≤ target ∧
        (q = max_quality ∨ target < size (q + 1)) := by
  intro fuel
  induction fuel with
  | zero =>
    intro low high best q hfuel _ _ hinfeas hbest hrun
    have hlh : high < low := by omega
    simp only [optimizeLoop] at hrun
    obtain ⟨h1, h2, h3, h4⟩ := hbest q hrun
    refine ⟨h3, h4, h1, ?_⟩
    by_cases hq : q + 1 ≤ max_quality
    · exact Or.inr (hinfeas (q + 1) (by omega) hq)
    · exact Or.inl (by omega)
  | succ fuel ih =>
    intro low high best q hfuel hlow hhigh hinfeas hbest hrun
    simp only [optimizeLoop] at hrun
    by_cases hlh : low ≤ high
    · rw [if_pos hlh] at hrun
      have hmid₁ : low ≤ (low + high) / 2 := by omega
      have hmid₂ : (low + high) / 2 ≤ high := by omega
      by_cases hfeas : size ((low + high) / 2) ≤ target
      · rw [if_pos hfeas] at hrun
        refine ih ((low + high) / 2 + 1) high (some ((low + high) / 2)) q
          (by omega) (by omega) hhigh hinfeas ?_ hrun
        intro b hb
        obtain rfl : b = (low + high) / 2 := by simpa using hb.symm
        exact ⟨hfeas, rfl, by omega, by omega⟩
      · rw [if_neg hfeas] at hrun
        refine ih low ((low + high) / 2 - 1) best q
          (by omega) hlow (by omega) ?_ hbest hrun
        intro r hr hrmax
        by_cases hrh : r ≤ high
        · calc target < size ((low + high) / 2) := lt_of_not_ge hfeas
            _ ≤ size r := hmono _ _ (by omega)
        · exact hinfeas r (by omega) hrmax
    · rw [if_neg hlh] at hrun
      obtain ⟨h1, h2, h3, h4⟩ := hbest q hrun
      refine ⟨h3, h4, h1, ?_⟩
      by_cases hq : q + 1 ≤ max_quality
      · exact Or.inr (hinfeas (q + 1) (by omega) hq)
      · exact Or.inl (by omega)

/-- Generalized invariant for the unreachable-target case: if every quality
in the searched range is infeasible, the candidate stays `none`. -/
theorem optimizeLoop_none (size : Int → ℚ) (target : ℚ) (min_quality max_quality : Int)
    (hinfeas : ∀ r : Int, min_quality ≤ r → r ≤ max_quality → target < size r) :
    ∀ (fuel : Nat) (low high : Int),
      min_quality ≤ low → high ≤ max_quality →
      optimizeLoop size target fuel low high none = none := by
  intro fuel
  induction fuel with
  | zero => intro low high _ _; rfl
  | succ fuel ih =>
    intro low high hlow hhigh
    simp only [optimizeLoop]
    by_cases hlh : low ≤ high
    · rw [if_pos hlh]
      have hmid₁ : low ≤ (low + high) / 2 := by omega
      have hmid₂ : (low + high) / 2 ≤ high := by omega
      have hbad : ¬ size ((low + high) / 2) ≤ target :=
        not_le_of_gt (hinfeas _ (by omega) (by omega))
      rw [if_neg hbad]
      exact ih low ((low + high) / 2 - 1) hlow (by omega)
    · rw [if_neg hlh]

/-- A recorded candidate is never dropped: once `best_result` is set the
loop cannot return `None`. -/
theorem optimizeLoop_some_ne_none (size : Int → ℚ) (target : ℚ) :
    ∀ (fuel : Nat) (low high b : Int),
      optimizeLoop size target fuel low high (some b) ≠ none := by
  intro fuel
  induction fuel with
  | zero =>
    intro low high b h
    exact absurd h (by simp [optimizeLoop])
  | succ fuel ih =>
    intro low high b
    simp only [optimizeLoop]
    by_cases hlh : low ≤ high
    · rw [if_pos hlh]
      by_cases hfeas : size ((low + high) / 2) ≤ target
      · rw [if_pos hfeas]
        exact ih _ _ _
      · rw [if_neg hfeas]
        exact ih _ _ _
    · rw [if_neg hlh]
      simp

/-- If some quality in the searched window is feasible, the loop does not
return `None` (monotonicity keeps a feasible quality inside the shrinking
window). -/
theorem optimizeLoop_reaches (size : Int → ℚ) (target : ℚ) (min_quality max_quality : Int)
    (hmono : ∀ a b : Int, a ≤ b → size a ≤ size b) :
    ∀ (fuel : Nat) (low high : Int),
      (high + 1 - low).toNat ≤ fuel →
      (∀ r : Int, min_quality ≤ r → r ≤ max_quality → size r ≤ target →
        low ≤ r ∧ r ≤ high) →
      (∃ r : Int, min_quality ≤ r ∧ r ≤ max_quality ∧ size r ≤ target) →
      optimizeLoop size target fuel low high none ≠ none := by
  intro fuel
  induction fuel with
  | zero =>
    intro low high hfuel hwin hreach
    obtain ⟨r, h1, h2, h3⟩ := hreach
    obtain ⟨h4, h5⟩ := hwin r h1 h2 h3
    exfalso
    omega
  | succ fuel ih =>
    intro low high hfuel hwin hreach
    simp only [optimizeLoop]
    by_cases hlh : low ≤ high
    · rw [if_pos hlh]
      by_cases hfeas : size ((low + high) / 2) ≤ target
      · rw [if_pos hfeas]
        exact optimizeLoop_some_ne_none size target fuel _ _ _
      · rw [if_neg hfeas]
        refine ih low ((low + high) / 2 - 1) (by omega) ?_ hreach
        intro r h1 h2 h3
        obtain ⟨h4, h5⟩ := hwin r h1 h2 h3
        refine ⟨h4, ?_⟩
        by_contra hcon
        exact hfeas (le_trans (hmono _ _ (by omega)) h3)
    · rw [if_neg hlh]
      obtain ⟨r, h1, h2, h3⟩ := hreach
      obtain ⟨h4, h5⟩ := hwin r h1 h2 h3
      exact absurd (le_trans h4 h5) hlh

/-- C1: for every probe-size function that is non-increasing as quality
decreases and every target reachable in the quality range,
`optimize_quality` returns the probe at a quality `q` in range with
`size q ≤ target`, and `q` is maximal in the searched range: either
`q = max_quality` or the size at `q + 1` exceeds the target (so the
search continued past the first feasible probe). -/
theorem optimize_quality_returns_maximal_feasible
    (size : Int → ℚ) (target : ℚ) (min_quality max_quality : Int)
    (hmono : ∀ a b : Int, a ≤ b → size a ≤ size b)
    (hreach : ∃ r : Int, min_quality ≤ r ∧ r ≤ max_quality ∧ size r ≤ target) :
    ∃ q : Int, optimize_quality size target min_quality max_quality = some q ∧
      min_quality ≤ q ∧ q ≤ max_quality ∧ size q ≤ target ∧
      (q = max_quality ∨ target < size (q + 1)) := by
  have hne : optimize_quality size target min_quality max_quality ≠ none := by
    unfold optimize_quality
    exact optimizeLoop_reaches size target min_quality max_quality hmono _
      min_quality max_quality le_rfl (fun r h1 h2 _ => ⟨h1, h2⟩) hreach
  rcases hq : optimize_quality size target min_quality max_quality with _ | q
  · exact absurd hq hne
  · refine ⟨q, rfl, ?_⟩
    refine optimizeLoop_sound size target min_quality max_quality hmono
      (max_quality + 1 - min_quality).toNat min_quality max_quality none q
      le_rfl le_rfl le_rfl ?_ ?_ hq
    · intro r hr hrmax
      omega
    · intro b hb
      exact absurd hb (by simp)

/-- Witness for C1: with `size q = q` (in MB), target 50, range 10–95, the
target is reachable and the search succeeds. -/
theorem optimize_quality_returns_maximal_feasible_witness :
    optimize_quality (fun q => (q : ℚ)) 50 10 95 ≠ none := by
  obtain ⟨q, hq, _⟩ := optimize_quality_returns_maximal_feasible
    (fun q => (q : ℚ)) 50 10 95
    (fun a b h => by show ((a : ℚ)) ≤ ((b : ℚ)); exact_mod_cast h)
    ⟨10, le_rfl, by decide, by decide⟩
  rw [hq]
  simp

/-- C2: if no quality in `[min_quality, max_quality]` (hence no probed
quality) produces a size within the target, `optimize_quality` produces no
result: the embedded `none` is the `raise ValueError("Cannot achieve
target size ...")` exit, the spec's `TargetUnreachableError`. -/
theorem optimize_quality_unreachable_fails
    (size : Int → ℚ) (target : ℚ) (min_quality max_quality : Int)
    (hinfeas : ∀ r : Int, min_quality ≤ r → r ≤ max_quality → target < size r) :
    optimize_quality size target min_quality max_quality = none :=
  optimizeLoop_none size target min_quality max_quality hinfeas
    (max_quality + 1 - min_quality).toNat min_quality max_quality le_rfl le_rfl

/-- Witness for C2: with `size q = q` and target 5 below the size 10
achieved at the minimum quality, the search fails. -/
theorem optimize_quality_unreachable_fails_witness :
    optimize_quality (fun q => (q : ℚ)) 5 10 95 = none :=
  optimize_quality_unreachable_fails (fun q => (q : ℚ)) 5 10 95
    (fun r hr _ => by show ((5 : ℚ)) < ((r : ℚ)); exact_mod_cast (by omega : (5 : Int) < r))

/-! ### Quality optimizer with the scratch file and probe exceptions (C7)

The Python loop creates `temp_output` through `self.compress` inside a
`try:` whose `finally:` runs

    if temp_output.exists():
        temp_output.unlink()

so the scratch file is removed whether the probe body returns normally or
raises.  We track the existence of the scratch file as a `Bool` alongside
the loop; a probe reports whether it wrote the file together with either
the measured size or the exception it raised. -/

/-- The optimizer loop with the scratch-file state.  `probe q = (written,
outcome)` embeds `self.compress(input_path, temp_output, quality=q, ...)`:
`written` tells whether the call left `temp_output` on disk, `outcome` is
the measured size or a raised exception.  The returned `Bool` is whether
the scratch file exists when control leaves the loop (normally or by a
propagating exception). -/
def optimizeLoopFs (probe : Int → Bool × Except String ℚ) (target : ℚ) :
    Nat → Int → Int → Option Int → Bool → Except String (Option Int) × Bool
  | 0, _, _, best, temp => (Except.ok best, temp)
  | fuel + 1, low, high, best, temp =>
    if low ≤ high then
      let mid := (low + high) / 2
      let written := (probe mid).1
      let afterTry := temp || written
      let afterCleanup := if afterTry then false else afterTry
      match (probe mid).2 with
      | Except.error e => (Except.error e, afterCleanup)
      | Except.ok sz =>
        if sz ≤ target then
          optimizeLoopFs probe target fuel (mid + 1) high (some mid) afterCleanup
        else
          optimizeLoopFs probe target fuel low (mid - 1) best afterCleanup
    else (Except.ok best, temp)

/-- `optimize_quality` with its three exit paths — normal return, the
unreachable-target `ValueError`, and a propagated probe exception —
together with the final scratch-file state. -/
def optimize_quality_fs (probe : Int → Bool × Except String ℚ) (target : ℚ)
    (min_quality max_quality : Int) : Except String Int × Bool :=
  let r := optimizeLoopFs probe target (max_quality + 1 - min_quality).toNat
    min_quality max_quality none false
  match r.1 with
  | Except.error e => (Except.error e, r.2)
  | Except.ok none => (Except.error "Cannot achieve target size", r.2)
  | Except.ok (some q) => (Except.ok q, r.2)

/-- The loop never leaks the scratch file: starting with no scratch file on
disk, it ends with none, on the normal exit and on the exception exit
alike. -/
theorem optimizeLoopFs_no_leak (probe : Int → Bool × Except String ℚ) (target : ℚ) :
    ∀ (fuel : Nat) (low high : Int) (best : Option Int),
      (optimizeLoopFs probe target fuel low high best false).2 = false := by
  intro fuel
  induction fuel with
  | zero => intro low high best; rfl
  | succ fuel ih =>
    intro low high best
    simp only [optimizeLoopFs]
    by_cases hlh : low ≤ high
    · rw [if_pos hlh]
      rcases h2 : (probe ((low + high) / 2)).2 with e | sz
      · simp [h2]
      · simp only [h2]
        by_cases hsz : sz ≤ target
        · rw [if_pos hsz]
          have := ih ((low + high) / 2 + 1) high (some ((low + high) / 2))
          simpa using this
        · rw [if_neg hsz]
          have := ih low ((low + high) / 2 - 1) best
          simpa using this
    · rw [if_neg hlh]

/-- C7: on every exit path of `optimize_quality` — normal return, the
unreachable-target failure, or an exception raised by a probe — the
scratch file used to measure a probe's size no longer exists when the call
returns. -/
theorem optimize_quality_scratch_file_removed
    (probe : Int → Bool × Except String ℚ) (target : ℚ)
    (min_quality max_quality : Int) :
    (optimize_quality_fs probe target min_quality max_quality).2 = false := by
  unfold optimize_quality_fs
  have h := optimizeLoopFs_no_leak probe target
    (max_quality + 1 - min_quality).toNat min_quality max_quality none
  rcases hr : (optimizeLoopFs probe target (max_quality + 1 - min_quality).toNat
      min_quality max_quality none false) with ⟨res, temp⟩
  have htemp : temp = false := by
    have := h
    rw [hr] at this
    exact this
  subst htemp
  rcases res with e | q
  · simp [hr]
  · rcases q with _ | q <;> simp [hr]

/-! ### Compression ratio (`utils.calculate_compression_ratio` and the
derived fields of `ImageCompressor.compress`)

Byte sizes are Python ints (`Path.stat().st_size`), embedded as `ℕ`; the
float division is embedded as exact division in `ℚ`. -/

/-- `utils.calculate_compression_ratio`. -/
def calculate_compression_ratio (original_size compressed_size : ℕ) : ℚ :=
  if original_size = 0 then 0 else (compressed_size : ℚ) / (original_size : ℚ)

/-- The derived fields `ImageCompressor.compress` adds to its result
(`compression_ratio` from the two byte sizes, `space_saved_percent` from
the ratio). -/
structure CompressDerived where
  compression_ratio : ℚ
  space_saved_percent : ℚ
deriving DecidableEq, Repr

/-- The `result.update({...})` step of `ImageCompressor.compress`,
restricted to the two derived fields the claim is about. -/
def compressDerived (original_bytes compressed_bytes : ℕ) : CompressDerived :=
  let ratio := calculate_compression_ratio original_bytes compressed_bytes
  { compression_ratio := ratio
    space_saved_percent := (1 - ratio) * 100 }

/-- C4: the reported ratio is `compressed / original` for a positive
original size and `0` for an empty original (no division by zero), and the
reported `space_saved_percent` is `(1 - ratio) * 100`. -/
theorem compression_ratio_invariant (original_bytes compressed_bytes : ℕ) :
    (0 < original_bytes →
      (compressDerived original_bytes compressed_bytes).compression_ratio =
        (compressed_bytes : ℚ) / (original_bytes : ℚ)) ∧
    (original_bytes = 0 →
      (compressDerived original_bytes compressed_bytes).compression_ratio = 0) ∧
    (compressDerived original_bytes compressed_bytes).space_saved_percent =
      (1 - (compressDerived original_bytes compressed_bytes).compression_ratio) * 100 := by
  refine ⟨?_, ?_, rfl⟩
  · intro h
    simp [compressDerived, calculate_compression_ratio, Nat.pos_iff_ne_zero.mp h]
  · intro h
    simp [compressDerived, calculate_compression_ratio, h]

/-- Witness for C4: at 1048576 original bytes and 262144 compressed bytes
the ratio is 1/4; at 0 original bytes it is 0. -/
theorem compression_ratio_invariant_witness :
    ((compressDerived 1048576 262144).compression_ratio = (262144 : ℚ) / 1048576 ∧
      (compressDerived 1048576 262144).space_saved_percent =
        (1 - (compressDerived 1048576 262144).compression_ratio) * 100) ∧
    (compressDerived 0 262144).compression_ratio = 0 :=
  ⟨⟨(compression_ratio_invariant 1048576 262144).1 (by norm_num),
    (compression_ratio_invariant 1048576 262144).2.2⟩,
    (compression_ratio_invariant 0 262144).2.1 rfl⟩

/-! ### Files and batch discovery (`ImageCompressor.compress_batch` lines
138–151, `utils.find_images_in_directory`)

A file is embedded by its directory components relative to the input
root, its stem and its suffix (`pathlib`'s `stem`/`suffix`: the suffix
starts at the last dot, so it is empty or begins with the only dot it
contains; a name such as `.jpg` is all stem and has an empty suffix).
`glob`/`rglob` with the patterns used by the source — all of the form
`*<ext>` — keeps the enumerated files whose *name* ends with `<ext>`, in
enumeration order: the fnmatch `*` matches any, possibly empty, sequence,
and `pathlib.Path.glob` does not exclude dotfiles, so `*.jpg` also
matches a file named exactly `.jpg`. -/

/-- A discovered file: directory components under the input root, stem,
and suffix (with its leading dot). -/
structure ImageFile where
  dir : List String
  stem : String
  ext : String
deriving DecidableEq, Repr

/-- `str.lower()` (ASCII, as the relevant extension characters are). -/
def pyLower (s : String) : String := String.mk (s.data.map Char.toLower)

/-- `str.upper()` (ASCII). -/
def pyUpper (s : String) : String := String.mk (s.data.map Char.toUpper)

/-- `str.lstrip(".")`: drop every leading dot. -/
def pyStripDots (s : String) : String := String.mk (s.data.dropWhile (fun c => c = '.'))

/-- The file's name, `stem + suffix`. -/
def fileName (f : ImageFile) : String := f.stem ++ f.ext

/-- Whether the file name matches the glob pattern `*<pat>`: the name
ends with `pat` (`*` may match the empty string, so a file named exactly
`pat` matches too). -/
def globMatchName (name pat : String) : Bool :=
  pat.data.isSuffixOf name.data

/-- One `glob`/`rglob` call with pattern `*<ext>`: the enumerated files
whose name ends with `ext`, in enumeration order. -/
def globMatches (entries : List ImageFile) (ext : String) : List ImageFile :=
  entries.filter (fun f => globMatchName (fileName f) ext)

/-- `image_files.extend(...)` over a pattern list: the concatenation of
the per-pattern glob results. -/
def globAll (entries : List ImageFile) : List String → List ImageFile
  | [] => []
  | p :: ps => globMatches entries p ++ globAll entries ps

/-- The pattern suffixes of `compress_batch`:
`patterns = ["*.jpg", "*.jpeg", "*.png", "*.webp"]`. -/
def batchPatterns : List String := [".jpg", ".jpeg", ".png", ".webp"]

/-- The discovery phase of `ImageCompressor.compress_batch` (lines
138–147): glob each pattern over the enumerated files and concatenate. -/
def batchDiscover (entries : List ImageFile) : List ImageFile :=
  globAll entries batchPatterns

/-- The supported input extensions of `utils.validate_image` /
`utils.find_images_in_directory`. -/
def supported_extensions : List String :=
  [".jpg", ".jpeg", ".png", ".webp", ".bmp", ".tiff", ".tif"]

/-- Case-insensitive membership of a suffix in the supported input set,
as `validate_image` computes it: `file_path.suffix.lower() in
supported_extensions`. -/
def isSupportedExt (ext : String) : Bool :=
  supported_extensions.contains (pyLower ext)

/-! ### `utils.find_images_in_directory`

The source globs `*{ext}` and `*{ext.upper()}` for each extension of the
supported set (a Python `set`, so its iteration order is not fixed across
runs), filters by `validate_image`, and returns `sorted(valid_images)`.
`validate_image` also opens the file, so we abstract it as a predicate;
`sorted` on `pathlib` paths is a sort by a total order on paths, embedded
here as the lexicographic order on the `(dir, stem, ext)` key. -/

/-- The sort key of a file: its path components. -/
def fileKey (f : ImageFile) : List String := f.dir ++ [f.stem, f.ext]

/-- The path order `sorted` uses, via the key. -/
def fileLe (f g : ImageFile) : Prop := fileKey f ≤ fileKey g

instance : DecidableRel fileLe := fun f g =>
  inferInstanceAs (Decidable (fileKey f ≤ fileKey g))

instance : IsTotal ImageFile fileLe := ⟨fun f g => le_total (fileKey f) (fileKey g)⟩

instance : IsTrans ImageFile fileLe := ⟨fun _ _ _ h1 h2 => le_trans h1 h2⟩

theorem fileKey_injective : Function.Injective fileKey := by
  intro f g h
  obtain ⟨h1, h2⟩ := List.append_inj' h rfl
  cases f
  cases g
  simp_all [fileKey]

instance : IsAntisymm ImageFile fileLe :=
  ⟨fun _ _ h1 h2 => fileKey_injective (le_antisymm h1 h2)⟩

/-- The glob phase of `find_images_in_directory`: for each extension in
the iteration order of the `image_extensions` set, extend by the matches
of `*{ext}` and of `*{ext.upper()}`. -/
def findImagesRaw (entries : List ImageFile) : List String → List ImageFile
  | [] => []
  | e :: es =>
    (globMatches entries e ++ globMatches entries (pyUpper e)) ++ findImagesRaw entries es

/-- `utils.find_images_in_directory`: glob, filter by `validate_image`
(abstracted as `valid`), and sort.  `extOrder` is the iteration order of
the `image_extensions` set in this run. -/
def find_images_in_directory (valid : ImageFile → Bool) (entries : List ImageFile)
    (extOrder : List String) : List ImageFile :=
  ((findImagesRaw entries extOrder).filter valid).insertionSort fileLe

theorem globMatches_perm (e₁ e₂ : List ImageFile) (h : List.Perm e₁ e₂) (p : String) :
    List.Perm (globMatches e₁ p) (globMatches e₂ p) :=
  h.filter _

theorem globAll_perm (e₁ e₂ : List ImageFile) (h : List.Perm e₁ e₂) :
    ∀ ps : List String, List.Perm (globAll e₁ ps) (globAll e₂ ps) := by
  intro ps
  induction ps with
  | nil => exact List.Perm.refl _
  | cons p ps ih => exact (globMatches_perm e₁ e₂ h p).append ih

theorem findImagesRaw_perm_entries (e₁ e₂ : List ImageFile) (h : List.Perm e₁ e₂) :
    ∀ exts : List String, List.Perm (findImagesRaw e₁ exts) (findImagesRaw e₂ exts) := by
  intro exts
  induction exts with
  | nil => exact List.Perm.refl _
  | cons x xs ih =>
    exact ((globMatches_perm e₁ e₂ h x).append (globMatches_perm e₁ e₂ h (pyUpper x))).append ih

theorem perm_append_rotate (u v w : List ImageFile) :
    List.Perm (u ++ (v ++ w)) (v ++ (u ++ w)) := by
  have h1 : List.Perm ((u ++ v) ++ w) ((v ++ u) ++ w) :=
    List.Perm.append_right w List.perm_append_comm
  rw [List.append_assoc, List.append_assoc] at h1
  exact h1

theorem findImagesRaw_perm_exts (entries : List ImageFile) (x₁ x₂ : List String)
    (h : List.Perm x₁ x₂) :
    List.Perm (findImagesRaw entries x₁) (findImagesRaw entries x₂) := by
  induction h with
  | nil => exact List.Perm.refl _
  | cons x _h ih => exact List.Perm.append_left _ ih
  | swap x y l => exact perm_append_rotate _ _ _
  | trans _h₁ _h₂ ih₁ ih₂ => exact ih₁.trans ih₂

/-- The stable part of the discovery contract: `find_images_in_directory`
returns the same (sorted) list on any two runs over an unchanged file
set, whatever enumeration order the filesystem and the extension set
iteration produce. -/
theorem find_images_in_directory_deterministic (valid : ImageFile → Bool)
    (e₁ e₂ : List ImageFile) (x₁ x₂ : List String)
    (he : List.Perm e₁ e₂) (hx : List.Perm x₁ x₂) :
    find_images_in_directory valid e₁ x₁ = find_images_in_directory valid e₂ x₂ := by
  refine List.eq_of_perm_of_sorted ?_ (List.sorted_insertionSort _ _)
    (List.sorted_insertionSort _ _)
  refine (List.perm_insertionSort _ _).trans (List.Perm.trans ?_
    (List.perm_insertionSort _ _).symm)
  exact ((findImagesRaw_perm_exts e₁ x₁ x₂ hx).trans
    (findImagesRaw_perm_entries e₁ e₂ he x₂)).filter valid

/-- Two enumerations of the same two files in opposite orders. -/
def fileAJpg : ImageFile := { dir := [], stem := "a", ext := ".jpg" }

/-- See `fileAJpg`. -/
def fileBJpg : ImageFile := { dir := [], stem := "b", ext := ".jpg" }

/-- C5, counterexample: `compress_batch` does not sort its `glob` results,
so on an unchanged file set two runs whose directory enumerations differ
(which `pathlib.Path.glob` permits) return the discovered files — and
hence the ordered result list — in different orders. -/
theorem batch_discovery_order_not_deterministic :
    List.Perm [fileBJpg, fileAJpg] [fileAJpg, fileBJpg] ∧
      batchDiscover [fileBJpg, fileAJpg] ≠ batchDiscover [fileAJpg, fileBJpg] := by
  constructor
  · exact List.Perm.swap fileAJpg fileBJpg []
  · decide

/-- Witness for the amended C5: concrete permuted enumerations and
extension orders give the same sorted discovery result. -/
theorem find_images_in_directory_deterministic_witness :
    find_images_in_directory (fun _ => true) [fileBJpg, fileAJpg] supported_extensions =
      find_images_in_directory (fun _ => true) [fileAJpg, fileBJpg]
        supported_extensions.reverse :=
  find_images_in_directory_deterministic (fun _ => true) _ _ _ _
    (List.Perm.swap fileAJpg fileBJpg []) (List.reverse_perm _).symm

/-- A file whose extension is in the supported input set but not among the
`compress_batch` patterns. -/
def fileABmp : ImageFile := { dir := [], stem := "a", ext := ".bmp" }

/-- A file named exactly `.jpg`: its `pathlib` suffix is empty (the name
is all stem), yet `*.jpg` matches it.  The spec's Scenario C batches such
a non-image file. -/
def fileHiddenJpg : ImageFile := { dir := [], stem := ".jpg", ext := "" }

/-- C6, counterexample: `a.bmp` has a supported input extension
(case-insensitively), yet the `compress_batch` discovery — whose patterns
are only `*.jpg`, `*.jpeg`, `*.png`, `*.webp` — does not discover it; and
conversely a file named exactly `.jpg`, whose extension is empty and so
outside the supported set, is discovered. -/
theorem batch_discovery_misses_supported_extension :
    (isSupportedExt ".bmp" = true ∧ fileABmp ∈ [fileABmp] ∧
      fileABmp ∉ batchDiscover [fileABmp]) ∧
    (isSupportedExt fileHiddenJpg.ext = false ∧
      fileHiddenJpg ∈ batchDiscover [fileHiddenJpg]) := by
  decide

/-- Which files the batch patterns catch: the name ends — case-sensitively
— with one of `.jpg`, `.jpeg`, `.png`, `.webp`. -/
def matchesBatchPattern (f : ImageFile) : Bool :=
  batchPatterns.any (fun p => globMatchName (fileName f) p)

/-- Amended C6: the `compress_batch` discovery enumerates exactly the
files whose *name* ends, case-sensitively, with one of `.jpg`, `.jpeg`,
`.png`, `.webp` — which includes a file named exactly `.jpg` (empty
`pathlib` suffix) and excludes the other supported input extensions and
all upper- or mixed-case variants. -/
theorem batch_discovery_membership (f : ImageFile) (entries : List ImageFile) :
    f ∈ batchDiscover entries ↔ f ∈ entries ∧ matchesBatchPattern f = true := by
  have hAll : ∀ ps : List String,
      f ∈ globAll entries ps ↔
        f ∈ entries ∧ ps.any (fun p => globMatchName (fileName f) p) = true := by
    intro ps
    induction ps with
    | nil => simp [globAll]
    | cons p ps ih =>
      simp only [globAll, globMatches, List.mem_append, List.mem_filter, ih,
        List.any_cons, Bool.or_eq_true]
      constructor
      · rintro (⟨h1, h2⟩ | ⟨h1, h2⟩)
        · exact ⟨h1, Or.inl h2⟩
        · exact ⟨h1, Or.inr h2⟩
      · rintro ⟨h1, h2 | h2⟩
        · exact Or.inl ⟨h1, h2⟩
        · exact Or.inr ⟨h1, h2⟩
  exact hAll batchPatterns

/-! ### Output paths of the recursive batch (`compress_batch` lines
153–168)

For `recursive=True` the per-file output path is

    output_dir / relative_path.parent
               / f"{relative_path.stem}_compressed.{format or relative_path.suffix.lstrip('.')}"

`format or x` falls back to `x` when `format` is `None` or empty (Python
truthiness). -/

/-- Python `format or alt` for an optional string. -/
def pyOrElse (format : Option String) (alt : String) : String :=
  match format with
  | none => alt
  | some s => if s = "" then alt else s

/-- The output path of one discovered file relative to the output root:
the mirrored parent directory and the produced file name. -/
def relOutputPath (format : Option String) (f : ImageFile) : List String × String :=
  (f.dir, f.stem ++ "_compressed." ++ pyOrElse format (pyStripDots f.ext))

/-- The relative output paths a recursive batch produces, one per
discovered file in discovery order. -/
def batchOutputPaths (format : Option String) (entries : List ImageFile) :
    List (List String × String) :=
  (batchDiscover entries).map (relOutputPath format)

/-- C9: two recursive batch runs over an unchanged input set (the same
files, however the filesystem enumerates them) produce the same set of
relative output paths. -/
theorem batch_output_structure_idempotent (format : Option String)
    (e₁ e₂ : List ImageFile) (h : List.Perm e₁ e₂) :
    ∀ p : List String × String,
      p ∈ batchOutputPaths format e₁ ↔ p ∈ batchOutputPaths format e₂ :=
  fun _ => (((globAll_perm e₁ e₂ h batchPatterns)).map (relOutputPath format)).mem_iff

/-- Witness for C9 at two concrete enumerations of the same file set. -/
theorem batch_output_structure_idempotent_witness :
    (([], "a_compressed.jpg") ∈ batchOutputPaths none [fileBJpg, fileAJpg] ↔
      ([], "a_compressed.jpg") ∈ batchOutputPaths none [fileAJpg, fileBJpg]) :=
  batch_output_structure_idempotent none [fileBJpg, fileAJpg] [fileAJpg, fileBJpg]
    (List.Perm.swap fileAJpg fileBJpg []) ([], "a_compressed.jpg")

/-! ### The per-item batch loop (`compress_batch` lines 153–179)

Each discovered file is processed in a `try:`; any exception is caught,
recorded as `{"input_path": ..., "error": str(e), "success": False}` and
the loop continues.  A successful `self.compress` call returns a result
whose `success` key is `True` and which carries no `error` key.  The whole
per-item body — output-path computation, `mkdir`, `self.compress` — is
abstracted as one fallible call per file. -/

/-- One entry of the result list of `compress_batch`, restricted to the
fields the claims are about. -/
structure BatchItem where
  input_path : String
  success : Bool
  error : Option String
deriving DecidableEq, Repr

/-- Whether the per-item body raises for this file. -/
def compressRaises (compressOne : ImageFile → Except String Unit) (f : ImageFile) : Bool :=
  match compressOne f with
  | Except.ok _ => false
  | Except.error _ => true

/-- One iteration of the batch loop: the `try:` body followed by the
`except:` handler that records the failure. -/
def compressItem (compressOne : ImageFile → Except String Unit) (f : ImageFile) : BatchItem :=
  match compressOne f with
  | Except.ok _ => { input_path := fileName f, success := true, error := none }
  | Except.error e => { input_path := fileName f, success := false, error := some e }

/-- The result list of the `for image_file in image_files:` loop. -/
def compress_batch_items (compressOne : ImageFile → Except String Unit)
    (files : List ImageFile) : List BatchItem :=
  files.map (compressItem compressOne)

theorem countP_not_eq_length_sub (l : List BatchItem) (p : BatchItem → Bool) :
    l.countP (fun r => !p r) = l.length - l.countP p := by
  have h := List.length_eq_countP_add_countP p l
  have h2 : List.countP (fun a => decide ¬p a = true) l = List.countP (fun a => !p a) l := by
    simp
  omega

/-- C3: if exactly one discovered file fails to compress, the batch
returns one item per file: exactly one failed item (with `success =
false` and a present error detail) and `N - 1` successful ones, and every
item is the result of its own file alone — later files are neither
aborted nor skipped. -/
theorem compress_batch_failure_isolation (compressOne : ImageFile → Except String Unit)
    (files : List ImageFile)
    (hone : files.countP (compressRaises compressOne) = 1) :
    (compress_batch_items compressOne files).length = files.length ∧
    (compress_batch_items compressOne files).countP (fun r => !r.success) = 1 ∧
    (compress_batch_items compressOne files).countP (fun r => r.success) =
      files.length - 1 ∧
    (∀ r ∈ compress_batch_items compressOne files,
      r.success = false → r.error.isSome = true) ∧
    (∀ (i : ℕ) (hi : i < files.length)
      (hi₂ : i < (compress_batch_items compressOne files).length),
      (compress_batch_items compressOne files).get ⟨i, hi₂⟩ =
        compressItem compressOne (files.get ⟨i, hi⟩)) := by
  have hfail : (compress_batch_items compressOne files).countP (fun r => !r.success) =
      files.countP (compressRaises compressOne) := by
    rw [compress_batch_items, List.countP_map]
    congr 1
    funext f
    rcases hc : compressOne f with e | u <;> simp [compressItem, compressRaises, hc]
  have hlen : (compress_batch_items compressOne files).length = files.length :=
    List.length_map _ _
  refine ⟨hlen, by rw [hfail, hone], ?_, ?_, ?_⟩
  · have h := countP_not_eq_length_sub (compress_batch_items compressOne files)
      (fun r => r.success)
    have h2 := List.length_eq_countP_add_countP (fun r => r.success)
      (compress_batch_items compressOne files)
    have h3 : (compress_batch_items compressOne files).countP
        (fun r => !r.success) = 1 := by rw [hfail, hone]
    have h4 : (compress_batch_items compressOne files).countP
        (fun a => decide ¬a.success = true) = 1 := by
      rw [← h3]
      simp
    omega
  · intro r hr hfalse
    obtain ⟨f, _hf, rfl⟩ := List.mem_map.mp hr
    rcases hc : compressOne f with e | u <;> simp_all [compressItem, hc]
  · intro i hi hi₂
    simp [compress_batch_items]

/-- The three files of the C3 witness batch; `c.jpg` is the corrupt one. -/
def fileCJpg : ImageFile := { dir := [], stem := "c", ext := ".jpg" }

/-- The C3 witness per-item behavior: only `c.jpg` raises. -/
def wCompressOne (f : ImageFile) : Except String Unit :=
  if f.stem == "c" then Except.error "cannot identify image file" else Except.ok ()

/-- Witness for C3 over a batch of three files with exactly one corrupt
file. -/
theorem compress_batch_failure_isolation_witness :
    (compress_batch_items wCompressOne [fileAJpg, fileCJpg, fileBJpg]).length =
      ([fileAJpg, fileCJpg, fileBJpg] : List ImageFile).length ∧
    (compress_batch_items wCompressOne [fileAJpg, fileCJpg, fileBJpg]).countP
      (fun r => !r.success) = 1 ∧
    (compress_batch_items wCompressOne [fileAJpg, fileCJpg, fileBJpg]).countP
      (fun r => r.success) = ([fileAJpg, fileCJpg, fileBJpg] : List ImageFile).length - 1 :=
  ⟨(compress_batch_failure_isolation wCompressOne _ (by decide)).1,
    (compress_batch_failure_isolation wCompressOne _ (by decide)).2.1,
    (compress_batch_failure_isolation wCompressOne _ (by decide)).2.2.1⟩

/-! ### The `batch` CLI command (`cli.py` lines 100–175)

The command body runs inside one `try:`; per-item failures never raise
(they are already recorded in the result list), so `sys.exit(1)` is
reached exactly when something systemic — discovery, output-root
creation, report writing — raises.  When no images are found the command
returns early; a normal return exits with code 0. -/

/-- The process exit code of the `batch` command, as a function of the
discovered image list and of the outcome of the guarded body
(`compress_batch` and the reporting that follows). -/
def batch_cli_exit (images : List ImageFile)
    (batchRun : Except String (List BatchItem)) : ℕ :=
  if images.length = 0 then 0
  else
    match batchRun with
    | Except.ok _ => 0
    | Except.error _ => 1

/-- A wholly failed batch item. -/
def failedItem : BatchItem :=
  { input_path := "a.jpg", success := false, error := some "corrupt" }

/-- C8, counterexample: a run in which every item failed (and no exception
propagated) still exits with code 0, where the claim requires a non-zero
exit code. -/
theorem batch_cli_exit_zero_although_all_failed :
    ([failedItem].all (fun r => !r.success)) = true ∧
      batch_cli_exit [fileAJpg] (Except.ok [failedItem]) = 0 := by
  decide

/-- Amended C8: the `batch` command exits 0 exactly when no images were
found or the guarded body returned normally — whatever the per-item
successes and failures — and non-zero exactly when a systemic error
(an exception out of discovery, output-root creation, compression
dispatch or report writing) occurred with images present. -/
theorem batch_cli_exit_zero_iff (images : List ImageFile)
    (batchRun : Except String (List BatchItem)) :
    batch_cli_exit images batchRun = 0 ↔
      (images = [] ∨ ∃ rs : List BatchItem, batchRun = Except.ok rs) := by
  rcases batchRun with e | rs
  · constructor
    · intro h
      left
      by_contra hne
      have hlen : images.length ≠ 0 := fun hl => hne (List.length_eq_zero.mp hl)
      simp [batch_cli_exit, if_neg hlen] at h
      exact hne h
    · rintro (rfl | ⟨rs, hrs⟩)
      · rfl
      · exact absurd hrs (by simp)
  · simp only [batch_cli_exit]
    constructor
    · intro _
      exact Or.inr ⟨rs, rfl⟩
    · intro _
      split <;> rfl

/-! ### Defaults of single-file `compress` (`compressor.py` lines 63–71)

With `format=None` the format is inferred as
`input_path.suffix.lower().lstrip(".")`; with `output_path=None` the
output goes to `input_path.parent / f"{input_path.stem}_compressed.{format}"`.
A `pathlib` suffix is empty or starts with its only dot. -/

/-- The format `ImageCompressor.compress` infers when none is given. -/
def inferFormat (f : ImageFile) : String := pyStripDots (pyLower f.ext)

/-- The format resolution of `ImageCompressor.compress` (`if format is
None: ...`; only `None` triggers inference). -/
def resolveFormat : Option String → ImageFile → String
  | some fmt, _ => fmt
  | none, f => inferFormat f

/-- The default output file name, built next to the input in its parent
directory. -/
def defaultOutputName (f : ImageFile) (format : String) : String :=
  f.stem ++ "_compressed." ++ format

/-- C10: with `format` omitted the output format is the input suffix,
lower-cased and with the dot stripped; with `output_path` omitted the
output name is `stem + "_compressed." + format` in the input's parent
directory, and that default never names the input file itself. -/
theorem compress_default_output_no_overwrite (f : ImageFile)
    (hext : f.ext = "" ∨ f.ext.data.head? = some '.') :
    resolveFormat none f = pyStripDots (pyLower f.ext) ∧
    defaultOutputName f (resolveFormat none f) ≠ fileName f := by
  refine ⟨rfl, ?_⟩
  intro heq
  have hdata := congrArg String.data heq
  simp only [defaultOutputName, fileName, String.data_append] at hdata
  rw [List.append_assoc] at hdata
  have h2 : "_compressed.".data ++ (resolveFormat none f).data = f.ext.data :=
    List.append_cancel_left hdata
  have hlit : "_compressed.".data = '_' :: "compressed.".data := rfl
  rw [hlit] at h2
  rcases hext with h | h
  · rw [h] at h2
    exact absurd h2 (by simp)
  · rcases hx : f.ext.data with _ | ⟨c, t⟩
    · rw [hx] at h
      exact absurd h (by simp)
    · rw [hx] at h h2
      have hc : c = '.' := by simpa using h
      have : '_' = c := (List.cons.injEq _ _ _ _).mp h2 |>.1
      rw [hc] at this
      exact absurd this (by decide)

/-- A concrete input for the C10 witness. -/
def filePhotoJPG : ImageFile := { dir := [], stem := "photo", ext := ".JPG" }

/-- Witness for C10 at `photo.JPG`. -/
theorem compress_default_output_no_overwrite_witness :
    resolveFormat none filePhotoJPG = pyStripDots (pyLower filePhotoJPG.ext) ∧
    defaultOutputName filePhotoJPG (resolveFormat none filePhotoJPG) ≠
      fileName filePhotoJPG :=
  compress_default_output_no_overwrite filePhotoJPG (Or.inr (by decide))

end Repixel
